import Mathlib

/-!
Verification development for the ollama food analyzer repository
(`app.py` and `app2.py`).  Python values that can appear in a record parsed
by `json.loads` are embedded as the inductive type `JVal`; Python strings
are embedded as `List Char`; Python `int` as `Int`; Python `float` as `ℚ`
(the claims only exercise values on which binary floating point is exact).
The helper functions (`safe_get`, `create_macro_pie_chart`, the response
normalisation inside `analyze_image_with_ollama` of both files, the
rendering steps and the upload session-state logic) are translated
function-for-function from the source.
-/

/-- A Python value as produced by `json.loads`, plus `None` (which is also
what `dict.get` returns for a missing key) and `bool`.  Objects keep their
key/value pairs in textual order; lookup takes the last binding, matching
the way `json.loads` builds a `dict` (later duplicate keys overwrite). -/
inductive JVal where
  | jnull
  | jbool (b : Bool)
  | jint (n : Int)
  | jfloat (q : ℚ)
  | jstr (s : String)
  | jarr (xs : List JVal)
  | jobj (kvs : List (String × JVal))

/-- One step of a `safe_get` key path: a string key or an integer index
(the Python code documents paths as "a sequence of string/integer steps"). -/
inductive Step where
  | sKey (k : String)
  | sIdx (i : Int)
deriving DecidableEq

/-- The whitespace characters stripped by Python `str.strip()` (ASCII part:
space, tab, newline, carriage return, vertical tab, form feed). -/
def isPySpace (c : Char) : Bool :=
  c = ' ' || c = '\t' || c = '\n' || c = '\r' || c = Char.ofNat 11 || c = Char.ofNat 12

/-- Python `str.strip()` on a character list. -/
def pyStrip (s : List Char) : List Char :=
  ((s.dropWhile isPySpace).reverse.dropWhile isPySpace).reverse

/-- ASCII decimal digit test. -/
def isDig (c : Char) : Bool :=
  '0' ≤ c && c ≤ '9'

/-- Numeric value of a list of ASCII digits, most significant first. -/
def digitsVal (ds : List Char) : Nat :=
  ds.foldl (fun n c => n * 10 + (c.toNat - 48)) 0

/-- Modelled from Python's builtin `int(str)` as used by `safe_get`:
optional surrounding whitespace, an optional sign, then one or more ASCII
digits.  (Python additionally accepts underscores between digits and
non-ASCII digits; the source strings exercised here never contain those.) -/
def pyParseInt (s : String) : Option Int :=
  let cs := pyStrip s.data
  let core : List Char → Option Int := fun ds =>
    if ds ≠ [] ∧ ds.all isDig then some (Int.ofNat (digitsVal ds)) else none
  match cs with
  | '-' :: ds => (core ds).map (fun n => -n)
  | '+' :: ds => core ds
  | ds => core ds

/-- `10 ^ e` over ℚ for an integer exponent. -/
def qpow10 (e : Int) : ℚ :=
  if 0 ≤ e then (10 : ℚ) ^ e.toNat else 1 / (10 : ℚ) ^ (-e).toNat

/-- Exponent suffix of a Python float literal: either nothing, or
`e`/`E`, an optional sign and one or more digits, ending the string. -/
def pyParseExp (cs : List Char) : Option Int :=
  match cs with
  | [] => some 0
  | e :: rest =>
    if e = 'e' ∨ e = 'E' then
      let (sgn, ds) : Int × List Char :=
        match rest with
        | '-' :: r => (-1, r)
        | '+' :: r => (1, r)
        | r => (1, r)
      if ds ≠ [] ∧ ds.all isDig then some (sgn * Int.ofNat (digitsVal ds)) else none
    else none

/-- Modelled from Python's builtin `float(str)` as used by `safe_get`:
optional surrounding whitespace, optional sign, a decimal mantissa with at
least one digit, and an optional exponent.  (Python additionally accepts
`inf`/`nan` spellings and underscores; the source strings exercised here
never contain those.) -/
def pyParseFloat (s : String) : Option ℚ :=
  let cs := pyStrip s.data
  let (sgn, cs1) : ℚ × List Char :=
    match cs with
    | '-' :: r => (-1, r)
    | '+' :: r => (1, r)
    | r => (1, r)
  let ip := cs1.takeWhile isDig
  let r1 := cs1.drop ip.length
  match r1 with
  | '.' :: r2 =>
    let fp := r2.takeWhile isDig
    let r3 := r2.drop fp.length
    if ip = [] ∧ fp = [] then none
    else (pyParseExp r3).map (fun e =>
      sgn * ((digitsVal ip : ℚ) + (digitsVal fp : ℚ) / (10 : ℚ) ^ fp.length) * qpow10 e)
  | r2 =>
    if ip = [] then none
    else (pyParseExp r2).map (fun e => sgn * (digitsVal ip : ℚ) * qpow10 e)

/-- The coercion tail of `safe_get` (app2.py lines 43–53): a value that is
already an `int` or `float` (which in Python includes `bool`) is returned
unchanged; otherwise `int(temp)` is attempted, then `float(temp)`, and on
failure the value is returned as is.  `int`/`float` applied to `None`,
lists and dicts raise `TypeError`, which the code catches, so those values
pass through unchanged. -/
def coercePy (t : JVal) : JVal :=
  match t with
  | .jint _ => t
  | .jfloat _ => t
  | .jbool _ => t
  | .jstr s =>
    match pyParseInt s with
    | some n => .jint n
    | none =>
      match pyParseFloat s with
      | some q => .jfloat q
      | none => t
  | _ => t

/-- Python `dict.get` on a JSON object: the last binding of the key (later
duplicate keys overwrite earlier ones when `json.loads` builds the dict),
or `None` when the key is absent. -/
def dictGet (kvs : List (String × JVal)) (k : String) : JVal :=
  match kvs.reverse.find? (fun p => p.1 = k) with
  | some p => p.2
  | none => .jnull

/-- `safe_get` from app2.py lines 23–56.  The traversal loop returns the
default as soon as it meets `None`, an out-of-range list index, or a value
that is neither a list (with an integer key) nor a dict; a dict is read
with `dict.get`, so a missing key yields `None`.  After the loop the final
value goes through the `int`/`float` coercion tail `coercePy`.  (The
closing `return temp if temp is not None else default` line of the Python
source is unreachable: every path inside the `try` block returns first.) -/
def safe_get : JVal → List Step → JVal → JVal
  | temp, [], _ => coercePy temp
  | .jnull, _ :: _, d => d
  | .jarr xs, .sIdx i :: rest, d =>
    if 0 ≤ i ∧ i < (xs.length : Int) then safe_get (xs.getD i.toNat .jnull) rest d else d
  | .jobj kvs, .sKey k :: rest, d => safe_get (dictGet kvs k) rest d
  | .jobj _, .sIdx _ :: rest, d => safe_get .jnull rest d
  | _, _ :: _, d => d

/-- Traversal of a key path with the access semantics `safe_get` uses
(`dict.get`, bounds-checked list indexing), but recording failure instead
of substituting the caller's default.  This is the specification-side
"looked-up value" that `safe_get`'s result is compared against. -/
def lookupPath : JVal → List Step → Option JVal
  | v, [] => some v
  | .jnull, _ :: _ => none
  | .jarr xs, .sIdx i :: rest =>
    if 0 ≤ i ∧ i < (xs.length : Int) then lookupPath (xs.getD i.toNat .jnull) rest else none
  | .jobj kvs, .sKey k :: rest => lookupPath (dictGet kvs k) rest
  | .jobj _, .sIdx _ :: rest => lookupPath .jnull rest
  | _, _ :: _ => none

/-- JSON whitespace: exactly the characters `json.loads` skips between tokens. -/
def isJsonWs (c : Char) : Bool :=
  c = ' ' || c = '\t' || c = '\n' || c = '\r'

/-- Skip JSON whitespace. -/
def skipWs (s : List Char) : List Char :=
  s.dropWhile isJsonWs

/-- Value of a hexadecimal digit, for string escapes. -/
def hexVal? (c : Char) : Option Nat :=
  if '0' ≤ c ∧ c ≤ '9' then some (c.toNat - 48)
  else if 'a' ≤ c ∧ c ≤ 'f' then some (c.toNat - 87)
  else if 'A' ≤ c ∧ c ≤ 'F' then some (c.toNat - 55)
  else none

/-- Body of a JSON string literal, after the opening quote: returns the
decoded content and the rest of the input after the closing quote.  Strict
`json.loads` behaviour: unescaped control characters and invalid escapes
are errors.  (Surrogate-pair recombination of `\uXXXX` escapes is not
modelled; no claim exercises it.) -/
def parseStrBody : List Char → Option (List Char × List Char)
  | [] => none
  | '"' :: r => some ([], r)
  | '\\' :: '"' :: r => (parseStrBody r).map (fun p => ('"' :: p.1, p.2))
  | '\\' :: '\\' :: r => (parseStrBody r).map (fun p => ('\\' :: p.1, p.2))
  | '\\' :: '/' :: r => (parseStrBody r).map (fun p => ('/' :: p.1, p.2))
  | '\\' :: 'b' :: r => (parseStrBody r).map (fun p => (Char.ofNat 8 :: p.1, p.2))
  | '\\' :: 'f' :: r => (parseStrBody r).map (fun p => (Char.ofNat 12 :: p.1, p.2))
  | '\\' :: 'n' :: r => (parseStrBody r).map (fun p => ('\n' :: p.1, p.2))
  | '\\' :: 'r' :: r => (parseStrBody r).map (fun p => ('\r' :: p.1, p.2))
  | '\\' :: 't' :: r => (parseStrBody r).map (fun p => ('\t' :: p.1, p.2))
  | '\\' :: 'u' :: a :: b :: c :: d :: r =>
    match hexVal? a, hexVal? b, hexVal? c, hexVal? d with
    | some ha, some hb, some hc, some hd =>
      (parseStrBody r).map (fun p => (Char.ofNat (((ha * 16 + hb) * 16 + hc) * 16 + hd) :: p.1, p.2))
    | _, _, _, _ => none
  | '\\' :: _ => none
  | c :: r => if c.toNat < 32 then none else (parseStrBody r).map (fun p => (c :: p.1, p.2))

/-- A JSON number literal: optional minus, an integer part with no leading
zero, an optional fraction, an optional exponent.  Yields `jint` when
neither fraction nor exponent is present (Python's `json` yields `int`
there and `float` otherwise). -/
def parseNum (s : List Char) : Option (JVal × List Char) :=
  let (neg, s1) : Bool × List Char :=
    match s with
    | '-' :: r => (true, r)
    | r => (false, r)
  let ipOpt : Option (List Char × List Char) :=
    match s1 with
    | '0' :: r => some (['0'], r)
    | r =>
      let ds := r.takeWhile isDig
      if ds = [] then none else some (ds, r.drop ds.length)
  match ipOpt with
  | none => none
  | some (ip, r1) =>
    let fracOpt : Option (List Char × List Char) :=
      match r1 with
      | '.' :: r2 =>
        let ds := r2.takeWhile isDig
        if ds = [] then none else some (ds, r2.drop ds.length)
      | _ => some ([], r1)
    match fracOpt with
    | none => none
    | some (fd, r2) =>
      let expOpt : Option (Bool × Int × List Char) :=
        match r2 with
        | c :: r3 =>
          if c = 'e' ∨ c = 'E' then
            let (sg, r4) : Int × List Char :=
              match r3 with
              | '-' :: r5 => (-1, r5)
              | '+' :: r5 => (1, r5)
              | r5 => (1, r5)
            let ds := r4.takeWhile isDig
            if ds = [] then none else some (true, sg * Int.ofNat (digitsVal ds), r4.drop ds.length)
          else some (false, 0, r2)
        | [] => some (false, 0, r2)
      match expOpt with
      | none => none
      | some (hasExp, e, r3) =>
        let hadFrac : Bool := decide (r1 ≠ r2)
        if hadFrac = false ∧ hasExp = false then
          let n : Int := Int.ofNat (digitsVal ip)
          some (.jint (if neg then -n else n), r3)
        else
          let q : ℚ :=
            ((digitsVal ip : ℚ) + (digitsVal fd : ℚ) / (10 : ℚ) ^ fd.length) * qpow10 e
          some (.jfloat (if neg then -q else q), r3)

mutual

/-- One JSON value, mirroring the grammar `json.loads` accepts; the fuel
argument bounds nesting depth and only ever runs out on inputs longer than
the fuel.  (Python's `json` additionally accepts `NaN`/`Infinity`; not
modelled, no claim exercises them.) -/
def parseVal : Nat → List Char → Option (JVal × List Char)
  | 0, _ => none
  | fuel + 1, s =>
    match skipWs s with
    | '{' :: r =>
      match skipWs r with
      | '}' :: r2 => some (.jobj [], r2)
      | r2 => parseMembers fuel r2 []
    | '[' :: r =>
      match skipWs r with
      | ']' :: r2 => some (.jarr [], r2)
      | r2 => parseItems fuel r2 []
    | '"' :: r => (parseStrBody r).map (fun p => (.jstr (String.mk p.1), p.2))
    | 't' :: 'r' :: 'u' :: 'e' :: r => some (.jbool true, r)
    | 'f' :: 'a' :: 'l' :: 's' :: 'e' :: r => some (.jbool false, r)
    | 'n' :: 'u' :: 'l' :: 'l' :: r => some (.jnull, r)
    | s2 => parseNum s2

/-- The comma-separated elements of a JSON array, after `[`. -/
def parseItems : Nat → List Char → List JVal → Option (JVal × List Char)
  | 0, _, _ => none
  | fuel + 1, s, acc =>
    match parseVal fuel s with
    | none => none
    | some (v, r) =>
      match skipWs r with
      | ',' :: r2 => parseItems fuel r2 (acc ++ [v])
      | ']' :: r2 => some (.jarr (acc ++ [v]), r2)
      | _ => none

/-- The `"key": value` members of a JSON object, after `{`, positioned at
a key with whitespace already skipped. -/
def parseMembers : Nat → List Char → List (String × JVal) → Option (JVal × List Char)
  | 0, _, _ => none
  | fuel + 1, s, acc =>
    match s with
    | '"' :: r =>
      match parseStrBody r with
      | none => none
      | some (k, r1) =>
        match skipWs r1 with
        | ':' :: r2 =>
          match parseVal fuel r2 with
          | none => none
          | some (v, r3) =>
            match skipWs r3 with
            | ',' :: r4 => parseMembers fuel (skipWs r4) (acc ++ [(String.mk k, v)])
            | '}' :: r4 => some (.jobj (acc ++ [(String.mk k, v)]), r4)
            | _ => none
        | _ => none
    | _ => none

end

/-- Strict `json.loads` on a character list: parse one value, then require
only whitespace to remain. -/
def jsonLoads (s : List Char) : Option JVal :=
  match parseVal (s.length + 8) s with
  | some (v, rest) => if skipWs rest = [] then some v else none
  | none => none

/-- The leading markdown fence marker stripped by app2.py line 181. -/
def fenceJson : List Char := "```json".data

/-- The trailing markdown fence marker stripped by app2.py line 183. -/
def fenceTicks : List Char := "```".data

/-- Python `str.startswith` on character lists (pattern first). -/
def startsWithL : List Char → List Char → Bool
  | [], _ => true
  | _ :: _, [] => false
  | p :: ps, c :: cs => p = c && startsWithL ps cs

/-- Python `str.endswith` on character lists (pattern first). -/
def endsWithL (pat s : List Char) : Bool :=
  startsWithL pat.reverse s.reverse

/-- Python `str.find` for a single character: index of the first occurrence. -/
def findIdxChar (c : Char) : List Char → Option Nat
  | [] => none
  | a :: t => if a = c then some 0 else (findIdxChar c t).map (· + 1)

/-- Python `str.rfind` for a single character: index of the last occurrence. -/
def rfindIdxChar (c : Char) (s : List Char) : Option Nat :=
  (findIdxChar c s.reverse).map (fun k => s.length - 1 - k)

/-- app2.py lines 180–185: drop a leading "```json" marker (7 characters)
and a trailing "```" marker (3 characters) when present. -/
def stripFences (s : List Char) : List Char :=
  let s1 := if startsWithL fenceJson s then s.drop 7 else s
  if endsWithL fenceTicks s1 then s1.take (s1.length - 3) else s1

/-- app2.py lines 187–193: find the first `{` and the last `}`; when both
exist and the first precedes the last, slice that substring out as the
JSON candidate, otherwise fall back to the whole string. -/
def extractCandidate (s : List Char) : List Char :=
  match findIdxChar '{' s, rfindIdxChar '}' s with
  | some i, some j => if i < j then (s.drop i).take (j + 1 - i) else s
  | some _, none => s
  | none, _ => s

/-- Outcome of app2.py's response normalisation: the parsed record plus the
cleaned raw string, or one of the two failure results (the Python code
returns these as `(parsed, error_message, raw)` tuples). -/
inductive NormResult where
  | ok (v : JVal) (raw : List Char)
  | emptyResponse (raw : List Char)
  | malformedJson (raw : List Char)

/-- The parsed record carried by a normalisation outcome, if any. -/
def NormResult.parsed : NormResult → Option JVal
  | .ok v _ => some v
  | _ => none

/-- The response-normalisation slice of `analyze_image_with_ollama` in
app2.py (lines 169–203): strip the transport's `response` field, fail on
empty text, strip markdown fences, re-strip, extract the brace-delimited
candidate and strictly parse it.  On success the code returns the (fence-
and whitespace-stripped) text as the raw output; likewise on parse
failure. -/
def app2_normalize (responseText : List Char) : NormResult :=
  let s0 := pyStrip responseText
  if s0 = [] then .emptyResponse s0
  else
    let s3 := pyStrip (stripFences s0)
    match jsonLoads (extractCandidate s3) with
    | some v => .ok v s3
    | none => .malformedJson s3

/-- Outcome of app.py's response normalisation (lines 73–97); the success
case carries no raw text because app.py returns `None` for it. -/
inductive Norm1Result where
  | ok (v : JVal)
  | emptyResponse
  | malformedJson (raw : List Char)

/-- The response-normalisation slice of `analyze_image_with_ollama` in
app.py (lines 73–97): strip the `response` field, fail on empty text, then
apply strict `json.loads` directly to the text — no fence stripping and no
brace-scan extraction. -/
def app1_normalize (responseText : List Char) : Norm1Result :=
  let s0 := pyStrip responseText
  if s0 = [] then .emptyResponse
  else
    match jsonLoads s0 with
    | some v => .ok v
    | none => .malformedJson s0

/-- Reference daily carbohydrate grams, app2.py line 16. -/
def STD_DAILY_CARBS_G : ℚ := 275

/-- Reference daily protein grams, app2.py line 17. -/
def STD_DAILY_PROTEIN_G : ℚ := 50

/-- Reference daily fat grams, app2.py line 18. -/
def STD_DAILY_FAT_G : ℚ := 78

/-- app2.py lines 71–75 and 355–357: a value that is a Python `int` or
`float` (`bool` is a subclass of `int`) is used as a number; anything else
is treated as 0. -/
def numOrZero : JVal → ℚ
  | .jint n => (n : ℚ)
  | .jfloat q => q
  | .jbool b => if b then 1 else 0
  | _ => 0

/-- The data of the Plotly pie figure built by `create_macro_pie_chart`:
slice labels, slice values and the per-slice pull offsets (the styling
arguments of the figure are constants). -/
structure PieChart where
  labels : List String
  values : List ℚ
  pull : List ℚ

/-- `create_macro_pie_chart` from app2.py lines 59–100: look the three
macros up with `safe_get`, replace non-numeric values by 0, filter out the
non-positive entries from both the label and the value list, and return
`None` when nothing remains. -/
def create_macro_pie_chart (macros : JVal) : Option PieChart :=
  let labels : List String := ["Carbohydrates", "Protein", "Fat"]
  let values : List JVal :=
    [safe_get macros [.sKey "carbohydrates"] (.jint 0),
     safe_get macros [.sKey "protein"] (.jint 0),
     safe_get macros [.sKey "fat"] (.jint 0)]
  let numeric_values : List ℚ := values.map numOrZero
  let valid_labels : List String :=
    (labels.zip numeric_values).filterMap (fun p => if 0 < p.2 then some p.1 else none)
  let valid_values : List ℚ := numeric_values.filter (fun v => decide (0 < v))
  if valid_values = [] then none
  else some ⟨valid_labels, valid_values, valid_values.map (fun v => if 0 < v then 1 / 20 else 0)⟩

/-- `create_macro_pie_chart` expressed over the three numeric macro
values it computes (the bodies coincide definitionally); convenient for
case analysis on the three positivity tests. -/
def chartFromVals (a b c : ℚ) : Option PieChart :=
  let valid_values : List ℚ := List.filter (fun v => decide (0 < v)) [a, b, c]
  if valid_values = [] then none
  else
    some ⟨List.filterMap (fun p => if 0 < p.2 then some p.1 else none)
        [("Carbohydrates", a), ("Protein", b), ("Fat", c)],
      valid_values, valid_values.map (fun v => if 0 < v then 1 / 20 else 0)⟩

/-- Python `int()` applied to a float truncates toward zero. -/
def pyTrunc (q : ℚ) : Int :=
  if 0 ≤ q then ⌊q⌋ else -⌊-q⌋

/-- app2.py lines 350–357: the grams displayed for one macro — the
`safe_get` result if it is a number, else 0. -/
def macroGrams (macros : JVal) (key : String) : ℚ :=
  numOrZero (safe_get macros [.sKey key] (.jint 0))

/-- app2.py lines 376–378: daily-value percentage of one macro, guarded by
the (always true) positivity test on the reference constant. -/
def dailyPct (v ref : ℚ) : ℚ :=
  if 0 < ref then v / ref * 100 else 0

/-- app2.py lines 384–390: the value fed to `st.progress` —
`min(int(pct), 100)`, i.e. the percentage truncated toward zero to an
integer and capped above at 100 (there is no lower cap). -/
def progressValue (pct : ℚ) : Int :=
  min (pyTrunc pct) 100

/-- How the Details tab shows the allergen field (app2.py lines 408–416):
an item list, plain text, or the explicit "not identified / unavailable"
message. -/
inductive AllergenView where
  | itemList (items : List JVal)
  | plainText (s : String)
  | unavailable

/-- app2.py lines 408–416: a non-empty list renders as an item list, a
non-empty string renders as plain text, and everything else (empty list,
empty string, missing field, any other type) renders the explicit
"No obvious potential allergens identified…" message. -/
def renderAllergens (data : JVal) : AllergenView :=
  match safe_get data [.sKey "potential_allergens"] (.jarr []) with
  | .jarr (x :: xs) => .itemList (x :: xs)
  | .jstr s => if s = "" then .unavailable else .plainText s
  | _ => .unavailable

/-- The Streamlit session state of app2.py (lines 241–250). -/
structure SessionState where
  analysis_result : Option JVal
  error_message : Option String
  raw_output : Option (List Char)
  uploaded_file_id : Option String
  image_bytes : Option (List Nat)

/-- The initial session state: every field is `None` (app2.py 241–250). -/
def initialSession : SessionState :=
  ⟨none, none, none, none, none⟩

/-- The internal-error message of app2.py line 293. -/
def internalErrMsg : String :=
  "Internal error: Analysis triggered but no image data found in session state."

/-- Composite identity of an upload, app2.py line 266: filename plus byte
size, joined by a dash. -/
def fileId (name : String) (size : Nat) : String :=
  name ++ "-" ++ toString size

/-- The upload-handling logic of app2.py lines 263–296, with the network
call `analyze_image_with_ollama` abstracted as the oracle `analyze`
(its tuple `(result, error, raw)`).  Returns the new session state and the
`run_analysis` flag: on a new composite identity the cached identity and
bytes are overwritten, the three result fields are reset and the analysis
block runs (falling into the internal-error branch when the stored bytes
are empty, i.e. falsy); on the same identity nothing happens. -/
def processUpload (analyze : List Nat → Option JVal × Option String × Option (List Char))
    (st : SessionState) (name : String) (content : List Nat) : SessionState × Bool :=
  let current_file_id := fileId name content.length
  if some current_file_id ≠ st.uploaded_file_id then
    let st1 : SessionState := ⟨none, none, none, some current_file_id, some content⟩
    let st2 : SessionState :=
      if content ≠ [] then
        let r := analyze content
        ⟨r.1, r.2.1, r.2.2, st1.uploaded_file_id, st1.image_bytes⟩
      else
        ⟨none, some internalErrMsg, none, st1.uploaded_file_id, st1.image_bytes⟩
    (st2, true)
  else (st, false)

/-! ## Theorems -/

/-- C3: for every input record (any JSON value, including non-dict values,
lists, nulls and mistyped fields) and every key path, `safe_get` always
returns normally — every Python exception its body can raise is caught —
and the result is either the supplied default or the coercion of the value
actually reachable along the path (`lookupPath`); in particular it is the
looked-up value or the documented default, never an error. -/
theorem C3_safe_get_never_raises :
    ∀ (v : JVal) (keys : List Step) (d : JVal),
      safe_get v keys d = d ∨
      ∃ w, lookupPath v keys = some w ∧ safe_get v keys d = coercePy w := by
  intro v keys d
  induction keys generalizing v with
  | nil => exact Or.inr ⟨v, by simp [lookupPath], by simp [safe_get]⟩
  | cons k rest ih =>
    cases v with
    | jnull => exact Or.inl (by simp [safe_get])
    | jbool b => exact Or.inl (by simp [safe_get])
    | jint n => exact Or.inl (by simp [safe_get])
    | jfloat q => exact Or.inl (by simp [safe_get])
    | jstr s => exact Or.inl (by simp [safe_get])
    | jarr xs =>
      cases k with
      | sKey s => exact Or.inl (by simp [safe_get])
      | sIdx i =>
        by_cases h : 0 ≤ i ∧ i < (xs.length : Int)
        · have e1 : safe_get (JVal.jarr xs) (Step.sIdx i :: rest) d
              = safe_get (xs.getD i.toNat .jnull) rest d := by
            simp only [safe_get]; rw [if_pos h]
          have e2 : lookupPath (JVal.jarr xs) (Step.sIdx i :: rest)
              = lookupPath (xs.getD i.toNat .jnull) rest := by
            simp only [lookupPath]; rw [if_pos h]
          rcases ih (xs.getD i.toNat .jnull) with h1 | ⟨w, hw1, hw2⟩
          · exact Or.inl (e1.trans h1)
          · exact Or.inr ⟨w, e2.trans hw1, e1.trans hw2⟩
        · refine Or.inl ?_
          simp only [safe_get]; rw [if_neg h]
    | jobj kvs =>
      cases k with
      | sKey s =>
        have e1 : safe_get (JVal.jobj kvs) (Step.sKey s :: rest) d
            = safe_get (dictGet kvs s) rest d := by simp only [safe_get]
        have e2 : lookupPath (JVal.jobj kvs) (Step.sKey s :: rest)
            = lookupPath (dictGet kvs s) rest := by simp only [lookupPath]
        rcases ih (dictGet kvs s) with h1 | ⟨w, hw1, hw2⟩
        · exact Or.inl (e1.trans h1)
        · exact Or.inr ⟨w, e2.trans hw1, e1.trans hw2⟩
      | sIdx i =>
        have e1 : safe_get (JVal.jobj kvs) (Step.sIdx i :: rest) d
            = safe_get JVal.jnull rest d := by simp only [safe_get]
        have e2 : lookupPath (JVal.jobj kvs) (Step.sIdx i :: rest)
            = lookupPath JVal.jnull rest := by simp only [lookupPath]
        rcases ih JVal.jnull with h1 | ⟨w, hw1, hw2⟩
        · exact Or.inl (e1.trans h1)
        · exact Or.inr ⟨w, e2.trans hw1, e1.trans hw2⟩

/-- C2 counterexample: `safe_get` coerces a numeric-looking string for
*every* field, not only declared-numeric ones — a string-valued field
whose value looks numeric is returned as a number, not as the original
string, so the claim as stated is false. -/
theorem C2_counterexample :
    safe_get (JVal.jobj [("food_name", JVal.jstr "123")]) [Step.sKey "food_name"]
        (JVal.jstr "N/A") = JVal.jint 123 ∧
    safe_get (JVal.jobj [("food_name", JVal.jstr "123")]) [Step.sKey "food_name"]
        (JVal.jstr "N/A") ≠ JVal.jstr "123" := by
  refine ⟨by rfl, ?_⟩
  intro h
  rw [show safe_get (JVal.jobj [("food_name", JVal.jstr "123")]) [Step.sKey "food_name"]
      (JVal.jstr "N/A") = JVal.jint 123 from rfl] at h
  exact JVal.noConfusion h

/-- C2 (amended): `safe_get` returns the supplied default when a step
meets a wrong container kind, an out-of-range index, or a null/absent
value before the last step; a final dict key that is absent (or null)
yields null rather than the default; and the terminal value is always put
through the `int`/`float` coercion — numeric-looking strings become
numbers for every field, while values the coercion cannot convert pass
through unchanged. -/
theorem C2_safe_get_amended :
    ∀ (kvs : List (String × JVal)) (k : String) (d : JVal) (st : Step) (rest : List Step)
      (xs : List JVal) (i : Int) (n : Int) (q : ℚ) (s : String),
      (dictGet kvs k = JVal.jnull → safe_get (JVal.jobj kvs) [Step.sKey k] d = JVal.jnull) ∧
      (safe_get (JVal.jint n) (st :: rest) d = d) ∧
      (safe_get (JVal.jstr s) (st :: rest) d = d) ∧
      (¬ (0 ≤ i ∧ i < (xs.length : Int)) → safe_get (JVal.jarr xs) (Step.sIdx i :: rest) d = d) ∧
      (safe_get JVal.jnull (st :: rest) d = d) ∧
      (pyParseInt s = some n → safe_get (JVal.jobj [(k, JVal.jstr s)]) [Step.sKey k] d = JVal.jint n) ∧
      (pyParseInt s = none → pyParseFloat s = some q →
        safe_get (JVal.jobj [(k, JVal.jstr s)]) [Step.sKey k] d = JVal.jfloat q) ∧
      (pyParseInt s = none → pyParseFloat s = none →
        safe_get (JVal.jobj [(k, JVal.jstr s)]) [Step.sKey k] d = JVal.jstr s) := by
  intro kvs k d st rest xs i n q s
  have hsingle : dictGet [(k, JVal.jstr s)] k = JVal.jstr s := by
    simp [dictGet, List.find?]
  refine ⟨?_, by simp [safe_get], by simp [safe_get], ?_, by simp [safe_get], ?_, ?_, ?_⟩
  · intro h
    have e : safe_get (JVal.jobj kvs) [Step.sKey k] d = coercePy (dictGet kvs k) := by
      simp only [safe_get]
    rw [e, h]; rfl
  · intro h
    simp only [safe_get]; rw [if_neg h]
  · intro h
    have e : safe_get (JVal.jobj [(k, JVal.jstr s)]) [Step.sKey k] d
        = coercePy (JVal.jstr s) := by simp only [safe_get, hsingle]
    rw [e]; simp only [coercePy, h]
  · intro h1 h2
    have e : safe_get (JVal.jobj [(k, JVal.jstr s)]) [Step.sKey k] d
        = coercePy (JVal.jstr s) := by simp only [safe_get, hsingle]
    rw [e]; simp only [coercePy, h1, h2]
  · intro h1 h2
    have e : safe_get (JVal.jobj [(k, JVal.jstr s)]) [Step.sKey k] d
        = coercePy (JVal.jstr s) := by simp only [safe_get, hsingle]
    rw [e]; simp only [coercePy, h1, h2]

/-- C2 witness: the amended theorem applied at concrete inputs — an
absent key yields null, and a numeric-looking string is coerced. -/
theorem C2_safe_get_amended_witness :
    safe_get (JVal.jobj []) [Step.sKey "notes"] (JVal.jstr "N/A") = JVal.jnull ∧
    safe_get (JVal.jobj [("food_name", JVal.jstr "42")]) [Step.sKey "food_name"]
        (JVal.jstr "N/A") = JVal.jint 42 :=
  ⟨(C2_safe_get_amended [] "notes" (JVal.jstr "N/A") (Step.sKey "x") [] [] 0 0 0 "x").1 rfl,
   (C2_safe_get_amended [("food_name", JVal.jstr "42")] "food_name" (JVal.jstr "N/A")
      (Step.sKey "x") [] [] 0 42 0 "42").2.2.2.2.2.1 (by rfl)⟩

theorem create_macro_eq (macros : JVal) :
    create_macro_pie_chart macros =
      chartFromVals (macroGrams macros "carbohydrates") (macroGrams macros "protein")
        (macroGrams macros "fat") := rfl

/-- C5: if all three macro values contribute 0 (they are zero, missing, or
non-numeric — all of which make the chart's numeric value 0), the chart
builder returns `None`; if at least one macro value is a positive number,
a chart is returned. -/
theorem C5_chart_none_or_some (macros : JVal) :
    ((macroGrams macros "carbohydrates" = 0 ∧ macroGrams macros "protein" = 0 ∧
        macroGrams macros "fat" = 0) → create_macro_pie_chart macros = none) ∧
    ((0 < macroGrams macros "carbohydrates" ∨ 0 < macroGrams macros "protein" ∨
        0 < macroGrams macros "fat") → (create_macro_pie_chart macros).isSome = true) := by
  rw [create_macro_eq]
  constructor
  · rintro ⟨h1, h2, h3⟩
    rw [h1, h2, h3]
    simp [chartFromVals, List.filter]
  · intro h
    rcases h with h | h | h <;> simp [chartFromVals, List.filter, h] <;>
      (repeat' split) <;> simp

/-- C5 witness: the theorem applied at concrete inputs — a macros dict
with a zero, a missing and a non-numeric value yields no chart, while one
positive macro yields a chart. -/
theorem C5_chart_none_or_some_witness :
    create_macro_pie_chart (JVal.jobj [("carbohydrates", JVal.jint 0),
        ("protein", JVal.jstr "lots")]) = none ∧
    (create_macro_pie_chart (JVal.jobj [("protein", JVal.jint 20)])).isSome = true :=
  ⟨(C5_chart_none_or_some (JVal.jobj [("carbohydrates", JVal.jint 0),
        ("protein", JVal.jstr "lots")])).1 (by refine ⟨by rfl, by rfl, by rfl⟩),
   (C5_chart_none_or_some (JVal.jobj [("protein", JVal.jint 20)])).2
      (Or.inr (Or.inl (by norm_num [macroGrams, safe_get, dictGet, List.find?, coercePy, numOrZero])))⟩

/-- C10: whenever a chart is returned, it contains exactly the macros
whose coerced numeric value is strictly positive — a macro that is 0 or
non-numeric appears in neither the labels nor the values — and the labels
stay aligned index-for-index with the values. -/
theorem C10_chart_positive_slices (macros : JVal) (c : PieChart)
    (h : create_macro_pie_chart macros = some c) :
    c.labels =
      (if 0 < macroGrams macros "carbohydrates" then ["Carbohydrates"] else []) ++
      (if 0 < macroGrams macros "protein" then ["Protein"] else []) ++
      (if 0 < macroGrams macros "fat" then ["Fat"] else []) ∧
    c.values =
      (if 0 < macroGrams macros "carbohydrates" then [macroGrams macros "carbohydrates"] else []) ++
      (if 0 < macroGrams macros "protein" then [macroGrams macros "protein"] else []) ++
      (if 0 < macroGrams macros "fat" then [macroGrams macros "fat"] else []) := by
  rw [create_macro_eq] at h
  by_cases ha : 0 < macroGrams macros "carbohydrates" <;>
    by_cases hb : 0 < macroGrams macros "protein" <;>
      by_cases hc : 0 < macroGrams macros "fat" <;>
        simp [chartFromVals, List.filter, List.filterMap, ha, hb, hc] at h <;>
          simp [← h, ha, hb, hc]

/-- C10 witness: the theorem applied at a concrete macros dict with one
zero macro — the chart keeps exactly the two positive slices, aligned. -/
theorem C10_chart_positive_slices_witness :
    (⟨["Carbohydrates", "Fat"], [80, 30], [1 / 20, 1 / 20]⟩ : PieChart).labels =
        ["Carbohydrates"] ++ [] ++ ["Fat"] ∧
    (⟨["Carbohydrates", "Fat"], [80, 30], [1 / 20, 1 / 20]⟩ : PieChart).values =
        [(80 : ℚ)] ++ [] ++ [30] := by
  have h := C10_chart_positive_slices
    (JVal.jobj [("carbohydrates", JVal.jint 80), ("protein", JVal.jint 0),
      ("fat", JVal.jint 30)]) ⟨["Carbohydrates", "Fat"], [80, 30], [1 / 20, 1 / 20]⟩ (by rfl)
  have e1 : macroGrams (JVal.jobj [("carbohydrates", JVal.jint 80), ("protein", JVal.jint 0),
      ("fat", JVal.jint 30)]) "carbohydrates" = 80 := by rfl
  have e2 : macroGrams (JVal.jobj [("carbohydrates", JVal.jint 80), ("protein", JVal.jint 0),
      ("fat", JVal.jint 30)]) "protein" = 0 := by rfl
  have e3 : macroGrams (JVal.jobj [("carbohydrates", JVal.jint 80), ("protein", JVal.jint 0),
      ("fat", JVal.jint 30)]) "fat" = 30 := by rfl
  obtain ⟨h1, h2⟩ := h
  rw [e1, e2, e3] at h1 h2
  constructor
  · rw [h1]; norm_num
  · rw [h2]; norm_num

/-- C4 counterexample: for 80 g of carbohydrate the percentage is
8000/275 = 320/11 ≈ 29.09, but the value fed to the progress indicator is
`min(int(pct), 100)` = 29, which is *not* the percentage clamped to
[0,100] (that would be 320/11 itself), so the claim as stated is false. -/
theorem C4_counterexample :
    ¬ ((progressValue (dailyPct (macroGrams (JVal.jobj [("carbohydrates", JVal.jint 80)])
          "carbohydrates") STD_DAILY_CARBS_G) : ℚ)
        = max 0 (min (dailyPct (macroGrams (JVal.jobj [("carbohydrates", JVal.jint 80)])
          "carbohydrates") STD_DAILY_CARBS_G) 100)) := by
  intro h
  have e1 : macroGrams (JVal.jobj [("carbohydrates", JVal.jint 80)]) "carbohydrates" = 80 := rfl
  rw [e1] at h
  have e2 : dailyPct 80 STD_DAILY_CARBS_G = 320 / 11 := by
    norm_num [dailyPct, STD_DAILY_CARBS_G]
  rw [e2] at h
  have e3 : progressValue (320 / 11) = 29 := by
    have hf : ⌊(320 / 11 : ℚ)⌋ = 29 := by norm_num
    rw [progressValue, pyTrunc, if_pos (by norm_num : (0 : ℚ) ≤ 320 / 11), hf]
    norm_num
  rw [e3] at h
  norm_num at h

/-- C4 (amended): the daily-value percentage equals
`macro_value / reference * 100` with references carbohydrate 275 g,
protein 50 g, fat 78 g; the percentage for macro value 0 is 0, for
carbohydrate 275 it is 100, for carbohydrate 550 it is 200; the value fed
to the progress indicator is `min(int(pct), 100)` — the percentage
truncated toward zero and capped above at 100 (so 550 g of carbohydrate
yields progress value 100), with no lower cap, while the unclamped
percentage is shown as text. -/
theorem C4_daily_percentages_amended :
    ∀ (macros : JVal) (p : ℚ),
      (dailyPct (macroGrams macros "carbohydrates") STD_DAILY_CARBS_G
          = macroGrams macros "carbohydrates" / 275 * 100) ∧
      (dailyPct (macroGrams macros "protein") STD_DAILY_PROTEIN_G
          = macroGrams macros "protein" / 50 * 100) ∧
      (dailyPct (macroGrams macros "fat") STD_DAILY_FAT_G
          = macroGrams macros "fat" / 78 * 100) ∧
      (dailyPct 0 STD_DAILY_CARBS_G = 0 ∧ dailyPct 0 STD_DAILY_PROTEIN_G = 0 ∧
        dailyPct 0 STD_DAILY_FAT_G = 0) ∧
      (dailyPct 275 STD_DAILY_CARBS_G = 100) ∧
      (dailyPct 550 STD_DAILY_CARBS_G = 200) ∧
      (progressValue (dailyPct 550 STD_DAILY_CARBS_G) = 100) ∧
      (progressValue p = min (pyTrunc p) 100) ∧
      (100 ≤ p → progressValue p = 100) ∧
      (0 ≤ p → progressValue p = min ⌊p⌋ 100) ∧
      (p < 0 → progressValue p = -⌊-p⌋) := by
  intro macros p
  refine ⟨by norm_num [dailyPct, STD_DAILY_CARBS_G],
    by norm_num [dailyPct, STD_DAILY_PROTEIN_G],
    by norm_num [dailyPct, STD_DAILY_FAT_G],
    ⟨by norm_num [dailyPct, STD_DAILY_CARBS_G],
     by norm_num [dailyPct, STD_DAILY_PROTEIN_G],
     by norm_num [dailyPct, STD_DAILY_FAT_G]⟩,
    by norm_num [dailyPct, STD_DAILY_CARBS_G],
    by norm_num [dailyPct, STD_DAILY_CARBS_G],
    ?_, rfl, ?_, ?_, ?_⟩
  · have e : dailyPct 550 STD_DAILY_CARBS_G = 200 := by
      norm_num [dailyPct, STD_DAILY_CARBS_G]
    rw [e]
    norm_num [progressValue, pyTrunc]
  · intro hp
    have h0 : (0 : ℚ) ≤ p := le_trans (by norm_num) hp
    have h1 : (100 : Int) ≤ ⌊p⌋ := by
      rw [Int.le_floor]
      exact_mod_cast hp
    rw [progressValue, pyTrunc, if_pos h0]
    omega
  · intro hp
    rw [progressValue, pyTrunc, if_pos hp]
  · intro hp
    have h1 : pyTrunc p = -⌊-p⌋ := by
      rw [pyTrunc, if_neg (not_le.mpr hp)]
    have h2 : pyTrunc p ≤ 100 := by
      rw [h1]
      have : (0 : Int) ≤ ⌊-p⌋ := Int.le_floor.mpr (by push_cast; linarith)
      omega
    rw [progressValue, min_eq_left h2, h1]

/-- C4 witness: the amended theorem applied at concrete inputs — the
percentage for 550 g of carbohydrate is 200 with progress value 100, and
a percentage of 150 is capped at 100 while 50 is fed truncated. -/
theorem C4_daily_percentages_amended_witness :
    dailyPct 550 STD_DAILY_CARBS_G = 200 ∧
    progressValue (dailyPct 550 STD_DAILY_CARBS_G) = 100 ∧
    progressValue 150 = 100 ∧
    progressValue 50 = min ⌊(50 : ℚ)⌋ 100 ∧
    progressValue (-5) = -⌊(5 : ℚ)⌋ :=
  ⟨(C4_daily_percentages_amended JVal.jnull 0).2.2.2.2.2.1,
   (C4_daily_percentages_amended JVal.jnull 0).2.2.2.2.2.2.1,
   (C4_daily_percentages_amended JVal.jnull 150).2.2.2.2.2.2.2.2.1 (by norm_num),
   (C4_daily_percentages_amended JVal.jnull 50).2.2.2.2.2.2.2.2.2.1 (by norm_num),
   by
     have h := (C4_daily_percentages_amended JVal.jnull (-5)).2.2.2.2.2.2.2.2.2.2 (by norm_num)
     rw [h]; norm_num⟩

/-- C6: when the transport's raw response text is empty (after the strip
applied at the read site), both normalizers return the EmptyResponse
outcome — an error result, never a parsed record (and, being total
functions of the text, never a crash). -/
theorem C6_empty_response (s : List Char) (h : pyStrip s = []) :
    app2_normalize s = NormResult.emptyResponse [] ∧
    app1_normalize s = Norm1Result.emptyResponse := by
  constructor
  · rw [app2_normalize, h]; rfl
  · rw [app1_normalize, h]; rfl

/-- C6 witness: the theorem applied at a concrete whitespace-only raw
response text. -/
theorem C6_empty_response_witness :
    app2_normalize (" \n ".data) = NormResult.emptyResponse [] ∧
    app1_normalize (" \n ".data) = Norm1Result.emptyResponse :=
  C6_empty_response (" \n ".data) (by rfl)

/-- C7: the details renderer handles both admissible shapes of the
allergen field — a non-empty list renders as an item list and a non-empty
plain sentinel string (one the numeric coercion leaves alone, such as
"None obvious") renders as plain text; an empty list, an empty string, a
missing field or a null all render as the explicit "not identified /
unavailable" message. -/
theorem C7_allergens_both_shapes :
    ∀ (kvs : List (String × JVal)) (x : JVal) (xs : List JVal) (s : String),
      (dictGet kvs "potential_allergens" = JVal.jarr (x :: xs) →
        renderAllergens (JVal.jobj kvs) = AllergenView.itemList (x :: xs)) ∧
      (dictGet kvs "potential_allergens" = JVal.jstr s → s ≠ "" →
        pyParseInt s = none → pyParseFloat s = none →
        renderAllergens (JVal.jobj kvs) = AllergenView.plainText s) ∧
      (dictGet kvs "potential_allergens" = JVal.jarr [] →
        renderAllergens (JVal.jobj kvs) = AllergenView.unavailable) ∧
      (dictGet kvs "potential_allergens" = JVal.jnull →
        renderAllergens (JVal.jobj kvs) = AllergenView.unavailable) ∧
      (dictGet kvs "potential_allergens" = JVal.jstr "" →
        renderAllergens (JVal.jobj kvs) = AllergenView.unavailable) := by
  intro kvs x xs s
  have e : ∀ w, dictGet kvs "potential_allergens" = w →
      renderAllergens (JVal.jobj kvs) =
        (match coercePy w with
         | .jarr (y :: ys) => .itemList (y :: ys)
         | .jstr t => if t = "" then .unavailable else .plainText t
         | _ => .unavailable) := by
    intro w hw
    rw [renderAllergens]
    have : safe_get (JVal.jobj kvs) [Step.sKey "potential_allergens"] (JVal.jarr [])
        = coercePy w := by simp only [safe_get, hw]
    rw [this]
  refine ⟨fun h => ?_, fun h hne h1 h2 => ?_, fun h => ?_, fun h => ?_, fun h => ?_⟩
  · exact (e _ h).trans rfl
  · rw [e _ h]
    simp only [coercePy, h1, h2]
    rw [if_neg hne]
  · exact (e _ h).trans rfl
  · exact (e _ h).trans rfl
  · exact (e _ h).trans rfl

/-- C7 witness: the theorem applied at concrete records — the sentinel
string "None obvious" renders as plain text, a non-empty list renders as
an item list, and a missing field renders the unavailable message. -/
theorem C7_allergens_both_shapes_witness :
    renderAllergens (JVal.jobj [("potential_allergens", JVal.jstr "None obvious")])
        = AllergenView.plainText "None obvious" ∧
    renderAllergens (JVal.jobj [("potential_allergens",
        JVal.jarr [JVal.jstr "Dairy", JVal.jstr "Gluten"])])
        = AllergenView.itemList [JVal.jstr "Dairy", JVal.jstr "Gluten"] ∧
    renderAllergens (JVal.jobj []) = AllergenView.unavailable :=
  ⟨(C7_allergens_both_shapes [("potential_allergens", JVal.jstr "None obvious")]
      JVal.jnull [] "None obvious").2.1 (by rfl) (by simp) (by rfl) (by rfl),
   (C7_allergens_both_shapes [("potential_allergens",
        JVal.jarr [JVal.jstr "Dairy", JVal.jstr "Gluten"])]
      (JVal.jstr "Dairy") [JVal.jstr "Gluten"] "").1 (by rfl),
   (C7_allergens_both_shapes [] JVal.jnull [] "").2.2.2.1 (by rfl)⟩

/-- C8: the cached analysis state is keyed by the composite identity
filename-plus-byte-length: on an upload whose identity equals the cached
one, no field changes and no analysis is triggered; on a different
identity the `run_analysis` flag is set and every cached field is replaced
wholesale — identity and bytes from the new upload, and the three result
fields from the fresh analysis attempt (the internal-error branch when the
new bytes are empty/falsy), independent of all previous values. -/
theorem C8_cache_keyed_by_file_id :
    ∀ (analyze : List Nat → Option JVal × Option String × Option (List Char))
      (st : SessionState) (name : String) (content : List Nat),
      (st.uploaded_file_id = some (fileId name content.length) →
        processUpload analyze st name content = (st, false)) ∧
      (st.uploaded_file_id ≠ some (fileId name content.length) →
        (processUpload analyze st name content).2 = true ∧
        (processUpload analyze st name content).1.uploaded_file_id
            = some (fileId name content.length) ∧
        (processUpload analyze st name content).1.image_bytes = some content ∧
        (content ≠ [] →
          (processUpload analyze st name content).1.analysis_result = (analyze content).1 ∧
          (processUpload analyze st name content).1.error_message = (analyze content).2.1 ∧
          (processUpload analyze st name content).1.raw_output = (analyze content).2.2) ∧
        (content = [] →
          (processUpload analyze st name content).1.analysis_result = none ∧
          (processUpload analyze st name content).1.error_message = some internalErrMsg ∧
          (processUpload analyze st name content).1.raw_output = none)) := by
  intro analyze st name content
  constructor
  · intro h
    rw [processUpload]
    simp [h]
  · intro h
    have e : processUpload analyze st name content =
        (if content ≠ [] then
          ⟨(analyze content).1, (analyze content).2.1, (analyze content).2.2,
            some (fileId name content.length), some content⟩
         else
          ⟨none, some internalErrMsg, none, some (fileId name content.length), some content⟩,
         true) := by
      rw [processUpload]
      rw [if_pos (Ne.symm h)]
    by_cases hc : content = []
    · rw [e, if_neg (by simp [hc])]
      refine ⟨rfl, rfl, rfl, fun hne => absurd hc hne, fun _ => ⟨rfl, rfl, rfl⟩⟩
    · rw [e, if_pos hc]
      refine ⟨rfl, rfl, rfl, fun _ => ⟨rfl, rfl, rfl⟩, fun heq => absurd heq hc⟩

/-- C8 witness: the theorem applied at concrete uploads — re-uploading the
file with the cached identity changes nothing, while a fresh identity
replaces every field and triggers analysis. -/
theorem C8_cache_keyed_by_file_id_witness :
    processUpload (fun _ => (none, some "boom", none))
        ⟨some (JVal.jobj []), none, some [], some "img.png-2", some [9, 9]⟩
        "img.png" [1, 2] =
      (⟨some (JVal.jobj []), none, some [], some "img.png-2", some [9, 9]⟩, false) ∧
    (processUpload (fun _ => (none, some "boom", none)) initialSession
        "img.png" [1, 2]).1.error_message = some "boom" :=
  ⟨(C8_cache_keyed_by_file_id (fun _ => (none, some "boom", none))
      ⟨some (JVal.jobj []), none, some [], some "img.png-2", some [9, 9]⟩
      "img.png" [1, 2]).1 (by rfl),
   ((C8_cache_keyed_by_file_id (fun _ => (none, some "boom", none)) initialSession
      "img.png" [1, 2]).2 (by simp [initialSession])).2.2.2.1 (by simp)|>.2.1⟩

/-- C9: the two normalizers are not equivalent — a valid JSON object
wrapped in a ```json markdown fence is parsed into a record by app2.py's
normalizer (fence stripping plus brace-scan extraction) but rejected as
malformed by app.py's normalizer, which applies strict `json.loads` to the
raw text directly. -/
theorem C9_normalizers_differ :
    app2_normalize ("```json\n\x7b\"food_name\": \"Pizza\"\x7d\n```".data) =
      NormResult.ok (JVal.jobj [("food_name", JVal.jstr "Pizza")])
        ("\x7b\"food_name\": \"Pizza\"\x7d".data) ∧
    app1_normalize ("```json\n\x7b\"food_name\": \"Pizza\"\x7d\n```".data) =
      Norm1Result.malformedJson ("```json\n\x7b\"food_name\": \"Pizza\"\x7d\n```".data) :=
  ⟨rfl, rfl⟩

/-- C1 counterexample: the embedded text is a valid JSON object, yet with
the extraneous suffix " }" (surrounding text containing a closing brace)
the normalizer's first-brace-to-last-brace candidate is a strict superset
of the object and the strict parse fails, so the claim as universally
stated over arbitrary surrounding text is false. -/
theorem C1_counterexample :
    jsonLoads ("\x7b\"a\": 1\x7d".data) = some (JVal.jobj [("a", JVal.jint 1)]) ∧
    (app2_normalize ("\x7b\"a\": 1\x7d \x7d".data)).parsed = none :=
  ⟨rfl, rfl⟩

theorem dropWhile_append_mid (P : Char → Bool) (A B t : List Char) (c : Char)
    (hc : P c = false) :
    (A ++ (c :: t) ++ B).dropWhile P = A.dropWhile P ++ (c :: t) ++ B := by
  induction A with
  | nil => simp [List.dropWhile_cons, hc]
  | cons a A ih =>
    simp only [List.cons_append, List.dropWhile_cons]
    cases hpa : P a with
    | true => simpa [hpa] using ih
    | false => simp [hpa]

theorem startsWith_length_le :
    ∀ (pat A t : List Char) (h : Char), h ∉ pat →
      startsWithL pat (A ++ h :: t) = true → pat.length ≤ A.length := by
  intro pat
  induction pat with
  | nil => intro A t h _ _; simp
  | cons p ps ih =>
    intro A t h hmem hp
    cases A with
    | nil =>
      exfalso
      simp only [List.nil_append, startsWithL, Bool.and_eq_true, decide_eq_true_eq] at hp
      exact hmem (by rw [← hp.1]; exact List.mem_cons_self p ps)
    | cons a A2 =>
      simp only [List.cons_append, startsWithL, Bool.and_eq_true] at hp
      have h2 := ih A2 t h (fun hm => hmem (List.mem_cons_of_mem p hm)) hp.2
      simp only [List.length_cons]
      omega

theorem findIdxChar_append_mid (c : Char) (A t : List Char)
    (hA : ∀ x ∈ A, x ≠ c) : findIdxChar c (A ++ c :: t) = some A.length := by
  induction A with
  | nil => simp [findIdxChar]
  | cons a A ih =>
    have ha : ¬ a = c := hA a (List.mem_cons_self a A)
    simp only [List.cons_append, findIdxChar]
    rw [if_neg ha]
    simp only [List.append_eq]
    rw [ih (fun x hx => hA x (List.mem_cons_of_mem a hx))]
    simp

theorem extractCandidate_mid (A B s t u : List Char)
    (hA : ∀ c ∈ A, c ≠ '{') (hB : ∀ c ∈ B, c ≠ '}')
    (h1 : s = '{' :: t) (h2 : s = u ++ ['}']) :
    extractCandidate (A ++ s ++ B) = s := by
  have hs2 : 2 ≤ s.length := by
    cases u with
    | nil =>
      rw [h2] at h1
      simp at h1
    | cons x u2 =>
      rw [h2]
      simp only [List.length_append, List.length_cons, List.length_nil]
      omega
  have hf : findIdxChar '{' (A ++ s ++ B) = some A.length := by
    have e : A ++ s ++ B = A ++ '{' :: (t ++ B) := by rw [h1]; simp
    rw [e]
    exact findIdxChar_append_mid '{' A (t ++ B) hA
  have hr : rfindIdxChar '}' (A ++ s ++ B) = some (A.length + s.length - 1) := by
    rw [rfindIdxChar]
    have hrev : (A ++ s ++ B).reverse = B.reverse ++ '}' :: (u.reverse ++ A.reverse) := by
      rw [h2]; simp
    rw [hrev, findIdxChar_append_mid '}' B.reverse (u.reverse ++ A.reverse)
      (fun x hx => hB x (List.mem_reverse.mp hx))]
    show some ((A ++ s ++ B).length - 1 - B.reverse.length) = some (A.length + s.length - 1)
    congr 1
    simp only [List.length_append, List.length_reverse]
    omega
  rw [extractCandidate, hf, hr]
  show (if A.length < A.length + s.length - 1 then
      List.take (A.length + s.length - 1 + 1 - A.length) (List.drop A.length (A ++ s ++ B))
    else A ++ s ++ B) = s
  rw [if_pos (by omega)]
  have harith : A.length + s.length - 1 + 1 - A.length = s.length := by omega
  rw [harith]
  have hd : List.drop A.length (A ++ s ++ B) = s ++ B := by
    rw [List.append_assoc]
    exact List.drop_left A (s ++ B)
  rw [hd]
  exact List.take_left s B

theorem fenceL_mid (A B s t : List Char) (h1 : s = '{' :: t) :
    ∃ A2, (if startsWithL fenceJson (A ++ s ++ B) then (A ++ s ++ B).drop 7 else A ++ s ++ B)
        = A2 ++ s ++ B ∧ ∀ c ∈ A2, c ∈ A := by
  by_cases hpre : startsWithL fenceJson (A ++ s ++ B) = true
  · have hlen : 7 ≤ A.length := by
      have hb : fenceJson.length ≤ A.length := by
        apply startsWith_length_le fenceJson A (t ++ B) '{' (by decide)
        rw [h1] at hpre
        have e : A ++ '{' :: t ++ B = A ++ '{' :: (t ++ B) := by simp
        rw [e] at hpre
        exact hpre
      simpa using hb
    refine ⟨A.drop 7, ?_, fun c hc => List.mem_of_mem_drop hc⟩
    rw [if_pos hpre, List.append_assoc, List.drop_append_of_le_length hlen,
      ← List.append_assoc]
  · exact ⟨A, by rw [if_neg hpre], fun c hc => hc⟩

theorem fenceR_mid (C B s u : List Char) (h2 : s = u ++ ['}']) :
    ∃ B2, (if endsWithL fenceTicks (C ++ s ++ B) then
            (C ++ s ++ B).take ((C ++ s ++ B).length - 3) else C ++ s ++ B)
        = C ++ s ++ B2 ∧ ∀ c ∈ B2, c ∈ B := by
  by_cases hend : endsWithL fenceTicks (C ++ s ++ B) = true
  · have hrev : (C ++ s ++ B).reverse = B.reverse ++ '}' :: (u.reverse ++ C.reverse) := by
      rw [h2]; simp
    have hlen : 3 ≤ B.length := by
      have hb : fenceTicks.reverse.length ≤ B.reverse.length := by
        apply startsWith_length_le fenceTicks.reverse B.reverse
          (u.reverse ++ C.reverse) '}' (by decide)
        rw [endsWithL, hrev] at hend
        exact hend
      simpa using hb
    have hlen2 : (C ++ s ++ B).length - 3 = (C ++ s).length + (B.length - 3) := by
      simp only [List.length_append]
      omega
    refine ⟨B.take (B.length - 3), ?_, fun c hc => List.take_subset _ _ hc⟩
    rw [if_pos hend, hlen2, List.take_append]
  · exact ⟨B, by rw [if_neg hend], fun c hc => hc⟩

theorem stripFences_mid (A B s t u : List Char)
    (h1 : s = '{' :: t) (h2 : s = u ++ ['}']) :
    ∃ A2 B2, stripFences (A ++ s ++ B) = A2 ++ s ++ B2 ∧
      (∀ c ∈ A2, c ∈ A) ∧ (∀ c ∈ B2, c ∈ B) := by
  obtain ⟨A2, eL, hA2⟩ := fenceL_mid A B s t h1
  obtain ⟨B2, eR, hB2⟩ := fenceR_mid A2 B s u h2
  refine ⟨A2, B2, ?_, hA2, hB2⟩
  simp only [stripFences]
  rw [eL, eR]

theorem pyStrip_mid (A B s t u : List Char)
    (h1 : s = '{' :: t) (h2 : s = u ++ ['}']) :
    pyStrip (A ++ s ++ B) =
      A.dropWhile isPySpace ++ s ++ (B.reverse.dropWhile isPySpace).reverse := by
  rw [pyStrip]
  have e1 : (A ++ s ++ B).dropWhile isPySpace = A.dropWhile isPySpace ++ s ++ B := by
    rw [h1]
    exact dropWhile_append_mid isPySpace A B t '{' (by decide)
  rw [e1]
  have e2 : (A.dropWhile isPySpace ++ s ++ B).reverse
      = B.reverse ++ s.reverse ++ (A.dropWhile isPySpace).reverse := by simp
  rw [e2]
  have hsrev : s.reverse = '}' :: u.reverse := by rw [h2]; simp
  have e3 : (B.reverse ++ s.reverse ++ (A.dropWhile isPySpace).reverse).dropWhile isPySpace
      = B.reverse.dropWhile isPySpace ++ s.reverse ++ (A.dropWhile isPySpace).reverse := by
    rw [hsrev]
    exact dropWhile_append_mid isPySpace B.reverse ((A.dropWhile isPySpace).reverse)
      u.reverse '}' (by decide)
  rw [e3]
  simp [List.append_assoc]

/-- C1 (amended): for every valid JSON object text `s` (a string that
starts with `{`, ends with `}` and strictly parses) embedded in extraneous
surrounding text and/or markdown fences whose prefix part contains no `{`
and whose suffix part contains no `}`, app2.py's normalizer extracts and
strictly parses exactly that embedded object. -/
theorem C1_extracts_embedded_object_amended :
    ∀ (p q s t u : List Char) (v : JVal) (kvs : List (String × JVal)),
      (∀ c ∈ p, c ≠ '{') → (∀ c ∈ q, c ≠ '}') →
      s = '{' :: t → s = u ++ ['}'] →
      jsonLoads s = some v → v = JVal.jobj kvs →
      (app2_normalize (p ++ s ++ q)).parsed = some v := by
  intro p q s t u v kvs hp hq h1 h2 hload hobj
  have hstrip1 : pyStrip (p ++ s ++ q) =
      p.dropWhile isPySpace ++ s ++ (q.reverse.dropWhile isPySpace).reverse :=
    pyStrip_mid p q s t u h1 h2
  have hA1 : ∀ c ∈ p.dropWhile isPySpace, c ≠ '{' :=
    fun c hc => hp c ((List.dropWhile_sublist _).subset hc)
  have hB1 : ∀ c ∈ (q.reverse.dropWhile isPySpace).reverse, c ≠ '}' :=
    fun c hc => hq c (List.mem_reverse.mp ((List.dropWhile_sublist _).subset
      (List.mem_reverse.mp hc)))
  obtain ⟨A2, B2, hfence, hA2, hB2⟩ :=
    stripFences_mid (p.dropWhile isPySpace) ((q.reverse.dropWhile isPySpace).reverse)
      s t u h1 h2
  have hstrip2 : pyStrip (A2 ++ s ++ B2) =
      A2.dropWhile isPySpace ++ s ++ (B2.reverse.dropWhile isPySpace).reverse :=
    pyStrip_mid A2 B2 s t u h1 h2
  have hA3 : ∀ c ∈ A2.dropWhile isPySpace, c ≠ '{' :=
    fun c hc => hA1 c (hA2 c ((List.dropWhile_sublist _).subset hc))
  have hB3 : ∀ c ∈ (B2.reverse.dropWhile isPySpace).reverse, c ≠ '}' :=
    fun c hc => hB1 c (hB2 c (List.mem_reverse.mp ((List.dropWhile_sublist _).subset
      (List.mem_reverse.mp hc))))
  have hextract : extractCandidate (pyStrip (stripFences (pyStrip (p ++ s ++ q)))) = s := by
    rw [hstrip1, hfence, hstrip2]
    exact extractCandidate_mid (A2.dropWhile isPySpace)
      ((B2.reverse.dropWhile isPySpace).reverse) s t u hA3 hB3 h1 h2
  have hne : pyStrip (p ++ s ++ q) ≠ [] := by
    rw [hstrip1, h1]
    simp
  simp only [app2_normalize]
  rw [if_neg hne, hextract, hload]
  rfl

/-- C1 witness: the amended theorem applied at a concrete raw text — a
JSON object surrounded by brace-free prose is extracted and parsed. -/
theorem C1_extracts_embedded_object_amended_witness :
    (app2_normalize ("Result: ".data ++ "\x7b\"a\": 1\x7d".data ++ " done".data)).parsed
      = some (JVal.jobj [("a", JVal.jint 1)]) :=
  C1_extracts_embedded_object_amended ("Result: ".data) (" done".data)
    ("\x7b\"a\": 1\x7d".data) ("\"a\": 1\x7d".data) ("\x7b\"a\": 1".data)
    (JVal.jobj [("a", JVal.jint 1)]) [("a", JVal.jint 1)]
    (by decide) (by decide) (by rfl) (by rfl) (by rfl) rfl
